import Mathlib

/-!
Verification of the soxs spectral core (`soxs/spectra.py`).

The Python code is shallowly embedded: numpy float arrays become `List ℚ`
(or `List ℝ` where transcendental functions such as `exp` and real powers
are involved), float outcomes of a division that numpy would turn into
`nan`/`inf` (with a warning, never an exception) are modelled by `PFloat`,
and Python exceptions are modelled by `Except PyErr`.  Astropy unit
bookkeeping is dropped: a `Quantity` is represented by its value, and the
keV-to-erg conversion factor (an external constant of `soxs.constants`)
is passed as an explicit parameter `c` where it appears.
-/

/-- Python exceptions raised (or silently not raised) by the embedded code.
Each constructor corresponds to one `raise` site of `soxs/spectra.py`:
`binningMismatch` and `unitsMismatch` are the two `RuntimeError`s of
`Spectrum.__add__`; `useGetNeiSpectrum` / `useGetSpectrum` are the
mode-mismatch `RuntimeError`s of `ApecGenerator.get_spectrum` /
`get_nei_spectrum`; `abundMismatch supplied expected` is the descriptive
`RuntimeError` whose message lists both the supplied abundance keys and the
configured free-element names; `indexError` is an out-of-bounds numpy
integer index; `unboundLocalError` is Python's `UnboundLocalError` raised
when a name assigned only inside untaken `if` branches is read. -/
inductive PyErr where
  | binningMismatch
  | unitsMismatch
  | useGetNeiSpectrum
  | useGetSpectrum
  | abundMismatch (supplied expected : List String)
  | indexError
  | unboundLocalError
deriving DecidableEq

/-- Outcome of a numpy floating-point division: a finite value, or the
`nan`/`inf`/`-inf` that numpy produces (with a RuntimeWarning, *not* an
exception) when the denominator is zero. -/
inductive PFloat where
  | nan
  | inf
  | ninf
  | fin (q : ℚ)
deriving DecidableEq

/-- Division with numpy float semantics: `0/0 = nan`, `x/0 = ±inf` for
`x ≠ 0`, otherwise the exact quotient. -/
def fdiv (a b : ℚ) : PFloat :=
  if b = 0 then (if a = 0 then .nan else if 0 < a then .inf else .ninf)
  else .fin (a / b)

/-- Midpoints `0.5*(ebins[1:] + ebins[:-1])` of consecutive entries. -/
def emidOf {α : Type} [DivisionRing α] : List α → List α
  | a :: b :: rest => (a + b) / 2 :: emidOf (b :: rest)
  | _ => []

/-- Differences `np.diff`: `l[i+1] - l[i]`. -/
def npDiff {α : Type} [Sub α] : List α → List α
  | a :: b :: rest => (b - a) :: npDiff (b :: rest)
  | _ => []

/-- Running prefix sums starting from `acc`, including the initial `acc`:
`prefixSums 0 v` models `np.insert(np.cumsum(v), 0, 0.0)`. -/
def prefixSums (acc : ℚ) : List ℚ → List ℚ
  | [] => [acc]
  | x :: xs => acc :: prefixSums (acc + x) xs

/-- Leftmost insertion point `np.searchsorted(l, v)` (side `left`) for a
sorted list `l`. -/
def searchsorted (l : List ℚ) (v : ℚ) : ℕ :=
  match l with
  | [] => 0
  | a :: rest => if v ≤ a then 0 else 1 + searchsorted rest v

/-- Numpy integer indexing `l[i]` for a scalar (possibly negative) index:
negative indices wrap from the end, indices out of `[-len, len)` raise
`IndexError`. -/
def npGetQ (l : List ℚ) (i : ℤ) : Except PyErr ℚ :=
  if i < 0 then
    if (-i).toNat ≤ l.length then .ok (l.getD (l.length - (-i).toNat) 0)
    else .error .indexError
  else
    if i.toNat < l.length then .ok (l.getD i.toNat 0)
    else .error .indexError

/-- The class attribute `Spectrum._units`. -/
def specUnits : String := "photon/(cm**2*s*keV)"

/-- The `Spectrum` container: bin edges (keV) and the flux-density array.
The `units` field models the `_units` class attribute (which differs for
`ConvolvedSpectrum`). -/
structure Spectrum where
  ebins : List ℚ
  flux : List ℚ
  units : String := specUnits
deriving DecidableEq

/-- Bin midpoints `self.emid`. -/
def Spectrum.emid (s : Spectrum) : List ℚ := emidOf s.ebins

/-- Number of bins `self.nbins = len(self.emid)`. -/
def Spectrum.nbins (s : Spectrum) : ℕ := s.emid.length

/-- The single stored bin width `self.de = self.ebins[1] - self.ebins[0]`:
the width of the *first* bin, whatever the other bins' widths are. -/
def Spectrum.de (s : Spectrum) : ℚ := s.ebins.getD 1 0 - s.ebins.getD 0 0

/-- Total photon flux `self.total_flux = self.flux.sum()*self.de`. -/
def Spectrum.total_flux (s : Spectrum) : ℚ := s.flux.sum * s.de

/-- Total energy flux
`(self.flux*self.emid.to("erg")).sum()*self.de/(1.0*u.photon)`, with `c`
the external keV-to-erg conversion factor (the division by `1*u.photon`
is pure unit bookkeeping). -/
def Spectrum.total_energy_flux (c : ℚ) (s : Spectrum) : ℚ :=
  (List.zipWith (fun f e => f * (e * c)) s.flux s.emid).sum * s.de

/-- The raw cumulative array `np.insert(np.cumsum(self.flux.value*self.de.value), 0, 0.0)`. -/
def cumspecRaw (flux : List ℚ) (de : ℚ) : List ℚ :=
  prefixSums 0 (flux.map (· * de))

/-- The denominator `cumspec[-1]` used for normalization. -/
def cumspecTotal (flux : List ℚ) (de : ℚ) : ℚ :=
  (cumspecRaw flux de).getLast?.getD 0

/-- The normalized cumulative distribution `cumspec /= cumspec[-1]`, with
numpy division semantics (an all-zero spectrum makes the denominator zero
and every entry `nan`). -/
def computeCumspec (flux : List ℚ) (de : ℚ) : List PFloat :=
  (cumspecRaw flux de).map (fun x => fdiv x (cumspecTotal flux de))

/-- The cached cumulative distribution `self.cumspec`. -/
def Spectrum.cumspec (s : Spectrum) : List PFloat := computeCumspec s.flux s.de

/-- The body of `Spectrum._compute_total_flux` as a Python call: it
computes the caches and *returns normally* — no statement in it can raise
(numpy division by zero only warns), which the `Except` wrapper makes
explicit. -/
def compute_total_flux (flux : List ℚ) (de : ℚ) : Except PyErr (ℚ × List PFloat) :=
  .ok (flux.sum * de, computeCumspec flux de)

/-- Numpy `np.isclose(a, b)` with the default tolerances
`rtol = 1e-5`, `atol = 1e-8`: `|a - b| ≤ atol + rtol*|b|`. -/
def npIsClose (a b : ℚ) : Prop := |a - b| ≤ 1e-8 + 1e-5 * |b|

instance (a b : ℚ) : Decidable (npIsClose a b) := by
  unfold npIsClose; infer_instance

/-- Elementwise `np.isclose(xs, ys).all()`. -/
def npIsCloseAll (xs ys : List ℚ) : Prop :=
  ∀ p ∈ List.zip xs ys, npIsClose p.1 p.2

instance (xs ys : List ℚ) : Decidable (npIsCloseAll xs ys) := by
  unfold npIsCloseAll; infer_instance

/-- The method `Spectrum.__add__`: raise if the bin counts differ or the
edge grids fail the `np.isclose` check, raise if the `_units` differ,
otherwise build `Spectrum(self.ebins, self.flux + other.flux)` (the
constructed object is a base `Spectrum`, hence carries `specUnits`). -/
def Spectrum.add (s o : Spectrum) : Except PyErr Spectrum :=
  if s.nbins ≠ o.nbins ∨ ¬ npIsCloseAll s.ebins o.ebins then
    .error .binningMismatch
  else if s.units ≠ o.units then
    .error .unitsMismatch
  else
    .ok ⟨s.ebins, List.zipWith (· + ·) s.flux o.flux, specUnits⟩

/-- The method `Spectrum.get_flux_in_band`: select the bins whose midpoint
lies in `[emin, emax]` and return the photon-rate and energy-rate sums,
each multiplied by the stored first-bin width `self.de`.  `c` is the
keV-to-erg factor of `self.emid.to("erg")`. -/
def Spectrum.get_flux_in_band (c : ℚ) (s : Spectrum) (emin emax : ℚ) : ℚ × ℚ :=
  ((List.zipWith (fun f e => if emin ≤ e ∧ e ≤ emax then f else 0)
      s.flux s.emid).sum * s.de,
   (List.zipWith (fun f e => if emin ≤ e ∧ e ≤ emax then f * (e * c) else 0)
      s.flux s.emid).sum * s.de)

/-- The method `Spectrum.rescale_flux`: measure the flux in the selected
band (photon or energy weighted, per `flux_type`), then scale the whole
flux array by `new_flux / f`.  For any other `flux_type` string the local
`f` is never assigned and reading it raises `UnboundLocalError` *before*
`self.flux` is mutated, so the spectrum is left unchanged (modelled by the
error result carrying no new state). -/
def Spectrum.rescale_flux (s : Spectrum) (new_flux : ℚ) (emin emax : Option ℚ)
    (flux_type : String) (c : ℚ) : Except PyErr Spectrum :=
  let lo := emin.getD (s.ebins.getD 0 0)
  let hi := emax.getD (s.ebins.getLast?.getD 0)
  if flux_type = "photons" then
    let f := (List.zipWith (fun f e => if lo ≤ e ∧ e ≤ hi then f else 0)
        s.flux s.emid).sum * s.de
    .ok ⟨s.ebins, s.flux.map (· * (new_flux / f)), s.units⟩
  else if flux_type = "energy" then
    let f := (List.zipWith (fun f e => if lo ≤ e ∧ e ≤ hi then f * (e * c) else 0)
        s.flux s.emid).sum * s.de
    .ok ⟨s.ebins, s.flux.map (· * (new_flux / f)), s.units⟩
  else
    .error .unboundLocalError

/-- Real-valued spectrum used for the operations whose flux involves
transcendental factors (`np.exp`, real powers): edges stay rational (they
are grid data), flux entries are reals. -/
structure SpectrumR where
  ebins : List ℚ
  flux : List ℝ

/-- Bin midpoints of a real-flux spectrum (edges are rational). -/
def SpectrumR.emid (s : SpectrumR) : List ℚ := emidOf s.ebins

/-- Breakpoints `emax` of `wabs_cross_section`. -/
def wabsEmax : List ℚ :=
  [0.0, 0.1, 0.284, 0.4, 0.532, 0.707, 0.867, 1.303, 1.840,
   2.471, 3.210, 4.038, 7.111, 8.331, 10.0]

/-- Coefficients `c0` of `wabs_cross_section`. -/
def wabsC0 : List ℚ :=
  [17.3, 34.6, 78.1, 71.4, 95.5, 308.9, 120.6, 141.3,
   202.7, 342.7, 352.2, 433.9, 629.0, 701.2]

/-- Coefficients `c1` of `wabs_cross_section`. -/
def wabsC1 : List ℚ :=
  [608.1, 267.9, 18.8, 66.8, 145.8, -380.6, 169.3,
   146.8, 104.7, 18.7, 18.7, -2.4, 30.9, 25.2]

/-- Coefficients `c2` of `wabs_cross_section`. -/
def wabsC2 : List ℚ :=
  [-2150.0, -476.1, 4.3, -51.4, -61.1, 294.0, -47.7,
   -31.5, -17.0, 0.0, 0.0, 0.75, 0.0, 0.0]

/-- Numpy fancy indexing `l[i]` for the (in-range, possibly `-1`) indices
produced by `wabs_cross_section`: negative indices wrap from the end. -/
def npWrapGet (l : List ℚ) (i : ℤ) : ℚ :=
  if i < 0 then l.getD (l.length - (-i).toNat) 0 else l.getD i.toNat 0

/-- The function `wabs_cross_section(E)`: clamp the bracket index to 13 and
evaluate `(c0[i] + c1[i]*E + c2[i]*E**2)*1e-24/E**3`.  (For `E = 0` numpy
would produce `inf`; rational division makes it `0` — no claim touches
`E = 0`.) -/
def wabs_cross_section (E : ℚ) : ℚ :=
  let i : ℤ := min ((searchsorted wabsEmax E : ℤ) - 1) 13
  (npWrapGet wabsC0 i + npWrapGet wabsC1 i * E + npWrapGet wabsC2 i * E * E)
    * 1e-24 / E ^ 3

/-- The method `Spectrum.apply_foreground_absorption`: redshift the
midpoint energies, pick the cross-section by the `model` string, and
multiply each flux entry by the survival fraction
`exp(-nH*1e22*sigma(e))`.  The tabulated tbabs cross-section lives in an
external data file, so it enters as the parameter `σtb`.  For any other
`model` string the local `sigma` is never assigned and reading it raises
`UnboundLocalError` before `self.flux` is mutated. -/
noncomputable def SpectrumR.apply_foreground_absorption (σtb : ℚ → ℚ) (s : SpectrumR)
    (nH : ℚ) (model : String) (redshift : ℚ) : Except PyErr SpectrumR :=
  let e := s.emid.map (· * (1 + redshift))
  if model = "wabs" then
    .ok ⟨s.ebins, List.zipWith
      (fun f en => f * Real.exp (-((nH : ℝ) * 1e22 * (wabs_cross_section en : ℝ))))
      s.flux e⟩
  else if model = "tbabs" then
    .ok ⟨s.ebins, List.zipWith
      (fun f en => f * Real.exp (-((nH : ℝ) * 1e22 * (σtb en : ℝ))))
      s.flux e⟩
  else
    .error .unboundLocalError

/-- The edge grid `np.linspace(emin, emax, nbins+1)` built by
`Spectrum.from_powerlaw`: `nbins+1` points `emin + i*(emax-emin)/nbins`. -/
noncomputable def from_powerlaw_ebins (emin emax : ℝ) (nbins : ℕ) : List ℝ :=
  (List.range (nbins + 1)).map
    (fun i : ℕ => emin + (i : ℝ) * ((emax - emin) / (nbins : ℝ)))

/-- The flux array of `Spectrum.from_powerlaw`:
`norm*(emid*(1+redshift))**(-photon_index)` (`**` is the real power). -/
noncomputable def from_powerlaw_flux (photon_index redshift norm emin emax : ℝ) (nbins : ℕ) : List ℝ :=
  (emidOf (from_powerlaw_ebins emin emax nbins)).map
    (fun e => norm * (e * (1 + redshift)) ^ (-photon_index))

/-- Elementwise sum of two equal-length numpy arrays. -/
def addList (a b : List ℚ) : List ℚ := List.zipWith (· + ·) a b

/-- Scalar multiple of a numpy array. -/
def scaleList (c : ℚ) (l : List ℚ) : List ℚ := l.map (c * ·)

/-- The two-point temperature interpolation `a*(1-dT) + b*dT`. -/
def lerpList (dT : ℚ) (a b : List ℚ) : List ℚ :=
  List.zipWith (fun x y => x * (1 - dT) + y * dT) a b

/-- The `ApecGenerator` state after construction.  The per-temperature
tables assembled by `_get_table` from the external APEC FITS files are
abstracted as the functions `cspecTab`/`mspecTab`/`vspecTab`
(temperature-grid index, redshift, broadening velocity in cm/s ↦ binned
spectrum): `cspecTab i z v` is the row `cspec[·,:]` accumulated over
`cosmic_elem`, `mspecTab` the `metal_elem` row, and `vspecTab j i z v` the
free-element row for the `j`-th entry of `var_elem`.  Everything else is
the concrete constructed state: the uniform energy grid, the temperature
grid `Tvals` read from the line file, the NEI flag and the free element /
ion name lists. -/
structure ApecGenerator where
  ebins : List ℚ
  nbins : ℕ
  Tvals : List ℚ
  nei : Bool
  var_elem_names : List String
  var_ion_names : List String
  cspecTab : ℕ → ℚ → ℚ → List ℚ
  mspecTab : ℕ → ℚ → ℚ → List ℚ
  vspecTab : ℕ → ℕ → ℚ → ℚ → List ℚ

/-- Result of a spectrum retrieval: the out-of-grid branch returns a bare
`np.zeros(self.nbins)` array, the in-grid branch a `Spectrum` object. -/
inductive ApecResult where
  | arr (v : List ℚ)
  | spec (s : Spectrum)
deriving DecidableEq

/-- The helper `ApecGenerator._spectrum_init` (units already parsed): the
bracket index `tindex = searchsorted(Tvals, kT) - 1` and the fractional
position `dT = (kT - Tvals[tindex])/dTvals[tindex]`.  Both numpy indexing
steps happen *before* any range guard, so `tindex = nT-1` (temperature
above the grid) raises `IndexError` out of `dTvals`, whose length is only
`nT-1`; `tindex = -1` silently wraps to the last entry. -/
def ApecGenerator.spectrum_init (g : ApecGenerator) (kT : ℚ) :
    Except PyErr (ℤ × ℚ) :=
  match npGetQ g.Tvals ((searchsorted g.Tvals kT : ℤ) - 1),
      npGetQ (npDiff g.Tvals) ((searchsorted g.Tvals kT : ℤ) - 1) with
  | .ok tv, .ok dtv => .ok ((searchsorted g.Tvals kT : ℤ) - 1, (kT - tv) / dtv)
  | .error e, _ => .error e
  | _, .error e => .error e

/-- The interior of `get_spectrum` after the range guard: interpolate the
cosmic and metal tables between `i0` and `i0+1`, add the freely varying
elements in dictionary order, and scale by `1.0e14*norm/self.de`
(elementwise over the width array `np.diff(self.ebins)`). -/
def ApecGenerator.combineSpec (g : ApecGenerator) (i0 : ℕ) (dT : ℚ)
    (abund redshift norm v : ℚ) (elem_abund : List (String × ℚ)) : List ℚ :=
  let cosmic := lerpList dT (g.cspecTab i0 redshift v) (g.cspecTab (i0 + 1) redshift v)
  let metal := lerpList dT (g.mspecTab i0 redshift v) (g.mspecTab (i0 + 1) redshift v)
  let spec := elem_abund.foldl (fun acc p =>
      let j := g.var_elem_names.indexOf p.1
      addList acc (scaleList p.2 (lerpList dT
        (g.vspecTab j i0 redshift v) (g.vspecTab j (i0 + 1) redshift v))))
    (addList cosmic (scaleList abund metal))
  List.zipWith (fun x d => x / d) (scaleList (1e14 * norm) spec) (npDiff g.ebins)

/-- The method `ApecGenerator.get_spectrum` (CIE): fail on an NEI
generator, fail if the supplied free-abundance keys do not match the
configured free-element name set (`elem_abund=None` is passed as `[]`),
then locate the temperature bracket; `tindex` out of `[0, nT-1)` (when
indexing did not already raise) returns a bare zero array, otherwise a
`Spectrum` on the generator's grid.  The abundance dictionary is modelled
as an association list in insertion order. -/
def ApecGenerator.get_spectrum (g : ApecGenerator)
    (kT abund redshift norm velocity : ℚ) (elem_abund : List (String × ℚ)) :
    Except PyErr ApecResult :=
  if g.nei then .error .useGetNeiSpectrum
  else if (elem_abund.map Prod.fst).toFinset ≠ g.var_elem_names.toFinset then
    .error (.abundMismatch (elem_abund.map Prod.fst) g.var_elem_names)
  else
    match g.spectrum_init kT with
    | .error e => .error e
    | .ok (tindex, dT) =>
      if (g.Tvals.length : ℤ) - 1 ≤ tindex ∨ tindex < 0 then
        .ok (.arr (List.replicate g.nbins 0))
      else
        .ok (.spec ⟨g.ebins,
          g.combineSpec tindex.toNat dT abund redshift norm (velocity * 1e5) elem_abund,
          specUnits⟩)

/-- The interior of `get_nei_spectrum` after the range guard: like
`combineSpec` but with no metal table and the free-ion names. -/
def ApecGenerator.combineNeiSpec (g : ApecGenerator) (i0 : ℕ) (dT : ℚ)
    (redshift norm v : ℚ) (elem_abund : List (String × ℚ)) : List ℚ :=
  let spec := elem_abund.foldl (fun acc p =>
      let j := g.var_ion_names.indexOf p.1
      addList acc (scaleList p.2 (lerpList dT
        (g.vspecTab j i0 redshift v) (g.vspecTab j (i0 + 1) redshift v))))
    (lerpList dT (g.cspecTab i0 redshift v) (g.cspecTab (i0 + 1) redshift v))
  List.zipWith (fun x d => x / d) (scaleList (1e14 * norm) spec) (npDiff g.ebins)

/-- The method `ApecGenerator.get_nei_spectrum` (NEI): fail on a CIE
generator, fail if the supplied keys do not match the free-ion name set,
then the same temperature-bracket logic as `get_spectrum`. -/
def ApecGenerator.get_nei_spectrum (g : ApecGenerator)
    (kT : ℚ) (elem_abund : List (String × ℚ)) (redshift norm velocity : ℚ) :
    Except PyErr ApecResult :=
  if ¬ g.nei then .error .useGetSpectrum
  else if (elem_abund.map Prod.fst).toFinset ≠ g.var_ion_names.toFinset then
    .error (.abundMismatch (elem_abund.map Prod.fst) g.var_ion_names)
  else
    match g.spectrum_init kT with
    | .error e => .error e
    | .ok (tindex, dT) =>
      if (g.Tvals.length : ℤ) - 1 ≤ tindex ∨ tindex < 0 then
        .ok (.arr (List.replicate g.nbins 0))
      else
        .ok (.spec ⟨g.ebins,
          g.combineNeiSpec tindex.toNat dT redshift norm (velocity * 1e5) elem_abund,
          specUnits⟩)

/-- Modelled from the spec: the numpy `RandomState` pseudo-random source
(`soxs.utils.parse_prng` and the numpy library are outside this core).
The spec requires a "seeded random source" to be deterministic, so a
source is a state type `σ` with deterministic transition functions:
`poisson st mu` draws one Poisson variate with mean `mu`, `uniform st n`
draws `n` uniform variates (numpy's `uniform(size=n)` always returns
exactly `n` values, recorded by `uniform_length`). -/
structure PrngModel (σ : Type) where
  poisson : σ → ℚ → ℕ × σ
  uniform : σ → ℕ → List ℚ × σ
  uniform_length : ∀ st n, (uniform st n).1.length = n

/-- Insertion of a value into a sorted list, for `randvec.sort()`. -/
def insertSorted (x : ℚ) : List ℚ → List ℚ
  | [] => [x]
  | y :: ys => if x ≤ y then x :: y :: ys else y :: insertSorted x ys

/-- In-place ascending sort `randvec.sort()` (insertion sort). -/
def pySort (l : List ℚ) : List ℚ := l.foldr insertSorted []

/-- The module function `_generate_energies(spec, t_exp, rate, prng)`:
one Poisson draw of size `n_ph` with mean `t_exp*rate`, `n_ph` sorted
uniform variates, each mapped through the inverse cumulative distribution
by `np.interp(randvec, cumspec, spec.ebins)`.  `np.interp` (an external
numpy routine applied pointwise) is the parameter `ip`. -/
def generate_energies_raw {σ : Type} (ip : ℚ → List PFloat → List ℚ → ℚ)
    (P : PrngModel σ) (spec : Spectrum) (t_exp rate : ℚ) (st : σ) :
    List ℚ × σ :=
  let cumspec := spec.cumspec
  let pr := P.poisson st (t_exp * rate)
  let ur := P.uniform pr.2 pr.1
  ((pySort ur.1).map (fun x => ip x cumspec spec.ebins), ur.2)

/-- The method `Spectrum.generate_energies`: `rate = area*self.total_flux`,
then `_generate_energies`; the realized mean energy flux
`np.sum(energy)*erg_per_keV/t_exp/area` is returned alongside (the final
`Energies` wrapper), with `c` the keV-to-erg factor. -/
def Spectrum.generate_energies {σ : Type} (ip : ℚ → List PFloat → List ℚ → ℚ)
    (P : PrngModel σ) (s : Spectrum) (t_exp area c : ℚ) (st : σ) :
    (List ℚ × ℚ) × σ :=
  let rate := area * s.total_flux
  let r := generate_energies_raw ip P s t_exp rate st
  ((r.1, r.1.sum * c / t_exp / area), r.2)

/-- Follows the claim's foil wording (C9): the total photon flux computed
with each bin's own width `ebins[i+1]-ebins[i]` instead of the stored
first-bin width. -/
def Spectrum.total_flux_perbin (s : Spectrum) : ℚ :=
  (List.zipWith (· * ·) s.flux (npDiff s.ebins)).sum

/-- Follows the claim's foil wording (C9): the total energy flux computed
with per-bin widths. -/
def Spectrum.total_energy_flux_perbin (c : ℚ) (s : Spectrum) : ℚ :=
  (List.zipWith (· * ·) (List.zipWith (fun f e => f * (e * c)) s.flux s.emid)
    (npDiff s.ebins)).sum

/-- Follows the claim's foil wording (C9): the cumulative distribution
built from per-bin integrals `flux[i]*(ebins[i+1]-ebins[i])`. -/
def Spectrum.cumspec_perbin (s : Spectrum) : List PFloat :=
  let raw := prefixSums 0 (List.zipWith (· * ·) s.flux (npDiff s.ebins))
  raw.map (fun x => fdiv x (raw.getLast?.getD 0))

/-- Follows the claim's foil wording (C9): band flux computed with per-bin
widths. -/
def Spectrum.get_flux_in_band_perbin (c : ℚ) (s : Spectrum) (emin emax : ℚ) :
    ℚ × ℚ :=
  ((List.zipWith (fun fd e => if emin ≤ e ∧ e ≤ emax then fd else 0)
      (List.zipWith (· * ·) s.flux (npDiff s.ebins)) s.emid).sum,
   (List.zipWith (fun fd e => if emin ≤ e ∧ e ≤ emax then fd * (e * c) else 0)
      (List.zipWith (· * ·) s.flux (npDiff s.ebins)) s.emid).sum)

/-- Follows the amended claim's words (C2): the fractional interpolation
position between the bracketing grid points `j = searchsorted(Tvals,kT)-1`
and `j+1`, expressed with plain in-range indices. -/
def apecDT (Tvals : List ℚ) (kT : ℚ) : ℚ :=
  let j := searchsorted Tvals kT - 1
  (kT - Tvals.getD j 0) / (Tvals.getD (j + 1) 0 - Tvals.getD j 0)

/-- Concrete spectrum `A` on edges `[0,1]`. -/
def specA : Spectrum := ⟨[0, 1], [1], specUnits⟩

/-- Concrete spectrum `B` whose upper edge differs from `A`'s by `1e-9`,
well inside the `np.isclose` tolerance. -/
def specB : Spectrum := ⟨[0, 1 + 1e-9], [1], specUnits⟩

/-- Concrete convolved-units spectrum on `A`'s edges (the
`ConvolvedSpectrum._units` class attribute). -/
def specConv : Spectrum := ⟨[0, 1], [1], "photon/(s*keV)"⟩

/-- Concrete spectrum on a monotonically increasing but non-uniform edge
grid `[0,1,3]`: the first bin has width 1, the second width 2. -/
def specNU : Spectrum := ⟨[0, 1, 3], [2, 4], specUnits⟩

/-- Concrete spectrum on sorted edges `[1,2,4]` for band-flux witnesses. -/
def specW : Spectrum := ⟨[1, 2, 4], [3, 5], specUnits⟩

/-- Concrete CIE generator: temperature grid `[1,2,3]`, one energy bin
`[0,1]`, no free elements, and a table whose cosmic spectrum at grid index
`i` is the single bin value `i+1`. -/
def genC : ApecGenerator :=
  { ebins := [0, 1], nbins := 1, Tvals := [1, 2, 3], nei := false,
    var_elem_names := [], var_ion_names := [],
    cspecTab := fun i _ _ => [(i : ℚ) + 1],
    mspecTab := fun _ _ _ => [0],
    vspecTab := fun _ _ _ _ => [0] }

/-- Concrete pointwise stand-in for `np.interp` (identity in the sample
point), used only to instantiate witnesses. -/
def ipW : ℚ → List PFloat → List ℚ → ℚ := fun x _ _ => x

/-- Concrete deterministic random source over state `ℕ`: every Poisson
draw returns 3, every uniform draw returns zeros. -/
def prngW : PrngModel ℕ :=
  ⟨fun st _ => (3, st + 1), fun st n => (List.replicate n 0, st),
   fun st n => by simp⟩

/-- Concrete real-flux spectrum for instantiating absorption claims. -/
noncomputable def specR0 : SpectrumR := ⟨[0, 1], [1]⟩

lemma prefixSums_ne_nil (acc : ℚ) (l : List ℚ) : prefixSums acc l ≠ [] := by
  cases l <;> simp [prefixSums]

lemma prefixSums_head? (acc : ℚ) (l : List ℚ) : (prefixSums acc l).head? = some acc := by
  cases l <;> simp [prefixSums]

lemma prefixSums_getLast? (l : List ℚ) : ∀ acc : ℚ,
    (prefixSums acc l).getLast? = some (acc + l.sum) := by
  induction l with
  | nil => intro acc; simp [prefixSums]
  | cons x xs ih =>
    intro acc
    cases xs with
    | nil => simp [prefixSums]
    | cons y ys =>
      have h := ih (acc + x)
      simp only [prefixSums] at h ⊢
      rw [List.getLast?_cons_cons, h]
      simp [add_assoc]

lemma prefixSums_replicate_zero (n : ℕ) (acc : ℚ) :
    prefixSums acc (List.replicate n 0) = List.replicate (n + 1) acc := by
  induction n generalizing acc with
  | zero => simp [prefixSums]
  | succ m ih => simp [List.replicate_succ, prefixSums, ih]

lemma prefixSums_chain' (l : List ℚ) : ∀ acc : ℚ, (∀ x ∈ l, 0 ≤ x) →
    List.Chain' (· ≤ ·) (prefixSums acc l) := by
  induction l with
  | nil => intro acc _; simp [prefixSums]
  | cons x xs ih =>
    intro acc h
    simp only [prefixSums]
    rw [List.chain'_cons']
    constructor
    · intro y hy
      rw [prefixSums_head? (acc + x) xs] at hy
      cases hy
      have : 0 ≤ x := h x (by simp)
      linarith
    · exact ih (acc + x) (fun z hz => h z (by simp [hz]))

lemma all_zero_map_mul (flux : List ℚ) (de : ℚ) (h : ∀ x ∈ flux, x = 0) :
    flux.map (· * de) = List.replicate flux.length 0 := by
  induction flux with
  | nil => simp
  | cons a l ih =>
    simp only [List.map_cons, List.length_cons, List.replicate_succ]
    rw [h a (by simp), ih (fun x hx => h x (by simp [hx]))]
    simp

/-- C1 counterexample: the claim says a spectrum whose flux array is all
zeros makes `_compute_total_flux` "fail loudly with an error rather than
silently dividing by zero", and that positive total flux suffices for a
non-decreasing cumulative distribution.  On the flux array `[0, 0]` the
embedded method returns normally (`.ok`), with every cumulative entry the
silent `nan` of the numpy zero division; and the spectrum with flux
`[2, -1]` has positive total flux `1` yet cumulative distribution
`[0, 2, 1]`, which is not non-decreasing. -/
theorem c1_counterexample :
    compute_total_flux [0, 0] 1 = .ok (0, [PFloat.nan, PFloat.nan, PFloat.nan]) ∧
    computeCumspec [2, -1] 1 = [PFloat.fin 0, PFloat.fin 2, PFloat.fin 1] ∧
    ¬ ((2 : ℚ) ≤ 1) := by
  refine ⟨?_, ?_, by norm_num⟩
  · simp [compute_total_flux, computeCumspec, cumspecRaw, cumspecTotal,
      prefixSums, fdiv]
  · simp [computeCumspec, cumspecRaw, cumspecTotal, prefixSums, fdiv]
    norm_num

lemma sum_map_mul (l : List ℚ) (de : ℚ) : (l.map (· * de)).sum = l.sum * de := by
  induction l with
  | nil => simp
  | cons a t ih => simp [ih, add_mul]

lemma cumspecTotal_eq (flux : List ℚ) (de : ℚ) :
    cumspecTotal flux de = flux.sum * de := by
  rw [cumspecTotal, cumspecRaw, prefixSums_getLast?]
  simp [sum_map_mul]

/-- C1 amended: on an all-zero flux array `_compute_total_flux` does not
fail at all — it returns normally with a silent numpy division by zero
that fills the cumulative distribution with `nan`; for a spectrum with
nonnegative flux, positive total flux and positive bin width the
cumulative distribution is the finite list of normalized prefix sums,
which has a leading 0, is non-decreasing, and has last value exactly 1. -/
theorem c1_amended :
    (∀ (flux : List ℚ) (de : ℚ), (∀ x ∈ flux, x = 0) →
      compute_total_flux flux de
        = .ok (0, List.replicate (flux.length + 1) PFloat.nan)) ∧
    (∀ (flux : List ℚ) (de : ℚ), (∀ x ∈ flux, 0 ≤ x) → 0 < flux.sum → 0 < de →
      computeCumspec flux de
        = ((cumspecRaw flux de).map (· / (flux.sum * de))).map PFloat.fin ∧
      ((cumspecRaw flux de).map (· / (flux.sum * de))).head? = some 0 ∧
      List.Chain' (· ≤ ·) ((cumspecRaw flux de).map (· / (flux.sum * de))) ∧
      ((cumspecRaw flux de).map (· / (flux.sum * de))).getLast? = some 1) := by
  constructor
  · intro flux de h
    have hsum : flux.sum = 0 := List.sum_eq_zero h
    have hraw : cumspecRaw flux de = List.replicate (flux.length + 1) 0 := by
      rw [cumspecRaw, all_zero_map_mul flux de h, prefixSums_replicate_zero]
    have htot : cumspecTotal flux de = 0 := by
      rw [cumspecTotal_eq, hsum, zero_mul]
    simp [compute_total_flux, hsum, computeCumspec, hraw, htot, fdiv]
  · intro flux de hnn hsum hde
    have hne : flux.sum * de ≠ 0 := ne_of_gt (mul_pos hsum hde)
    refine ⟨?_, ?_, ?_, ?_⟩
    · simp only [computeCumspec, cumspecTotal_eq, List.map_map]
      apply List.map_congr_left
      intro a _
      simp [fdiv, hne, Function.comp]
    · rw [List.head?_map, cumspecRaw, prefixSums_head?]
      simp
    · rw [List.chain'_map]
      apply List.Chain'.imp ?_ (prefixSums_chain' _ 0 ?_)
      · intro a b hab
        exact div_le_div_of_nonneg_right hab (mul_pos hsum hde).le
      · intro x hx
        rcases List.mem_map.mp hx with ⟨a, ha, rfl⟩
        exact mul_nonneg (hnn a ha) hde.le
    · rw [List.getLast?_map, cumspecRaw, prefixSums_getLast?]
      simp [sum_map_mul, div_self hne]

/-- C1 witness: the amended theorem applied to the all-zero flux `[0]`
and to the positive spectrum with flux `[1, 1]` and bin width `1/2`. -/
theorem c1_witness :
    (compute_total_flux [0] 1 = .ok (0, [PFloat.nan, PFloat.nan])) ∧
    (computeCumspec [1, 1] (1/2)
        = ((cumspecRaw [1, 1] (1/2)).map (· / (([1, 1] : List ℚ).sum * (1/2)))).map
            PFloat.fin ∧
      ((cumspecRaw [1, 1] (1/2)).map (· / (([1, 1] : List ℚ).sum * (1/2)))).head?
        = some 0 ∧
      List.Chain' (· ≤ ·)
        ((cumspecRaw [1, 1] (1/2)).map (· / (([1, 1] : List ℚ).sum * (1/2)))) ∧
      ((cumspecRaw [1, 1] (1/2)).map (· / (([1, 1] : List ℚ).sum * (1/2)))).getLast?
        = some 1) := by
  constructor
  · exact c1_amended.1 [0] 1 (by intro x hx; simpa using hx)
  · exact c1_amended.2 [1, 1] (1/2) (by intro x hx; simp at hx; norm_num [hx])
      (by norm_num) (by norm_num)

lemma zip_same_eq (l : List ℚ) : ∀ p ∈ List.zip l l, p.1 = p.2 := by
  induction l with
  | nil => simp
  | cons a t ih =>
    intro p hp
    rcases hp with _ | ⟨_, hp⟩
    · rfl
    · exact ih _ hp

lemma npIsClose_refl (x : ℚ) : npIsClose x x := by
  unfold npIsClose
  simp only [sub_self, abs_zero]
  positivity

lemma npIsCloseAll_refl (l : List ℚ) : npIsCloseAll l l := by
  intro p hp
  have h := zip_same_eq l p hp
  rw [npIsClose, h, sub_self, abs_zero]
  positivity

/-- Every edge pair of `A` and `B` passes the `np.isclose` check: the
grids agree except for the `1e-9` offset on the upper edge, well inside
the tolerance. -/
lemma specAB_close : npIsCloseAll specA.ebins specB.ebins := by
  intro p hp
  have hz : List.zip specA.ebins specB.ebins = [(0, 0), (1, 1 + 1e-9)] := rfl
  rw [hz] at hp
  simp only [List.mem_cons, List.not_mem_nil, or_false] at hp
  rcases hp with rfl | rfl
  · exact npIsClose_refl 0
  · unfold npIsClose
    rw [show (1 : ℚ) - (1 + 1e-9) = -1e-9 by ring, abs_neg,
      abs_of_nonneg (by norm_num : (0:ℚ) ≤ 1e-9),
      abs_of_nonneg (by norm_num : (0:ℚ) ≤ 1 + 1e-9)]
    norm_num

/-- C3 counterexample: the claim says addition raises whenever the edge
grids differ "even by floating tolerance"; but `A`'s and `B`'s grids
differ (by `1e-9` in the upper edge) and `A + B` succeeds, returning the
elementwise flux sum on `A`'s edges, because `__add__` compares edges with
`np.isclose`. -/
theorem c3_counterexample :
    specA.ebins ≠ specB.ebins ∧
    specA.add specB = .ok ⟨[0, 1], [2], specUnits⟩ := by
  constructor
  · simp only [specA, specB]
    intro h
    have h2 : (1 : ℚ) = 1 + 1e-9 := by
      injection h with h1 h3
      injection h3
    norm_num at h2
  · have h1 : ¬ (specA.nbins ≠ specB.nbins ∨ ¬ npIsCloseAll specA.ebins specB.ebins) := by
      push_neg
      exact ⟨rfl, specAB_close⟩
    unfold Spectrum.add
    rw [if_neg h1, if_neg (fun hne => hne rfl)]
    norm_num [specA, specB]

/-- C3 amended: addition raises iff the bin counts differ, some pair of
corresponding edges fails numpy's `isclose` tolerance
(`|a-b| ≤ 1e-8 + 1e-5*|b|`), or the flux units differ.  The four arms
cover the iff exhaustively: (1) bin-count or tolerance failure raises the
binning error; (2) grids that pass the tolerance check but differing
units raise the units error; (3) any grids within tolerance (identical or
not) with equal units are accepted, keeping the left operand's edges and
summing flux elementwise; (4) in particular, for identical edges and
units the result is the elementwise flux sum on those edges. -/
theorem c3_amended :
    (∀ s o : Spectrum, s.nbins ≠ o.nbins ∨ ¬ npIsCloseAll s.ebins o.ebins →
      s.add o = .error .binningMismatch) ∧
    (∀ s o : Spectrum, s.nbins = o.nbins → npIsCloseAll s.ebins o.ebins →
      s.units ≠ o.units → s.add o = .error .unitsMismatch) ∧
    (∀ s o : Spectrum, s.nbins = o.nbins → npIsCloseAll s.ebins o.ebins →
      s.units = o.units →
      s.add o = .ok ⟨s.ebins, List.zipWith (· + ·) s.flux o.flux, specUnits⟩) ∧
    (∀ s o : Spectrum, s.ebins = o.ebins → s.units = o.units →
      s.add o = .ok ⟨s.ebins, List.zipWith (· + ·) s.flux o.flux, specUnits⟩) := by
  have harm3 : ∀ s o : Spectrum, s.nbins = o.nbins →
      npIsCloseAll s.ebins o.ebins → s.units = o.units →
      s.add o = .ok ⟨s.ebins, List.zipWith (· + ·) s.flux o.flux, specUnits⟩ := by
    intro s o hn hclose hu
    have h1 : ¬ (s.nbins ≠ o.nbins ∨ ¬ npIsCloseAll s.ebins o.ebins) := by
      push_neg
      exact ⟨hn, hclose⟩
    unfold Spectrum.add
    rw [if_neg h1, if_neg (fun hne => hne hu)]
  refine ⟨?_, ?_, harm3, ?_⟩
  · intro s o h
    unfold Spectrum.add
    rw [if_pos h]
  · intro s o hn hclose hu
    have h1 : ¬ (s.nbins ≠ o.nbins ∨ ¬ npIsCloseAll s.ebins o.ebins) := by
      push_neg
      exact ⟨hn, hclose⟩
    unfold Spectrum.add
    rw [if_neg h1, if_pos hu]
  · intro s o he hu
    refine harm3 s o ?_ ?_ hu
    · unfold Spectrum.nbins Spectrum.emid
      rw [he]
    · rw [he]
      exact npIsCloseAll_refl _

/-- C3 witness: the amended theorem applied once per arm — mismatched bin
counts raise the binning error, equal grids with convolved units raise
the units error, the within-tolerance-but-different grids of `A` and `B`
are accepted with `A`'s edges, and identical spectra `A + A` sum
elementwise. -/
theorem c3_witness :
    specA.add specNU = .error .binningMismatch ∧
    specA.add specConv = .error .unitsMismatch ∧
    specA.add specB
      = .ok ⟨specA.ebins, List.zipWith (· + ·) specA.flux specB.flux, specUnits⟩ ∧
    specA.add specA
      = .ok ⟨specA.ebins, List.zipWith (· + ·) specA.flux specA.flux, specUnits⟩ :=
  ⟨c3_amended.1 specA specNU (Or.inl (by decide)),
   c3_amended.2.1 specA specConv rfl (npIsCloseAll_refl _) (by decide),
   c3_amended.2.2.1 specA specB rfl specAB_close rfl,
   c3_amended.2.2.2 specA specA rfl rfl⟩

lemma chain'_le_getLastD (l : List ℚ) : ∀ a : ℚ, List.Chain' (· ≤ ·) (a :: l) →
    a ≤ l.getLastD a := by
  induction l with
  | nil => intro a _; simp
  | cons b t ih =>
    intro a h
    rw [List.chain'_cons] at h
    calc a ≤ b := h.1
    _ ≤ t.getLastD b := ih b h.2
    _ = (b :: t).getLastD a := (List.getLastD_cons a b t).symm

lemma emid_bounds (l : List ℚ) : ∀ a : ℚ, List.Chain' (· ≤ ·) (a :: l) →
    ∀ x ∈ emidOf (a :: l), a ≤ x ∧ x ≤ l.getLastD a := by
  induction l with
  | nil => intro a _ x hx; simp [emidOf] at hx
  | cons b t ih =>
    intro a h x hx
    rw [List.chain'_cons] at h
    rw [List.getLastD_cons]
    simp only [emidOf, List.mem_cons] at hx
    rcases hx with rfl | hx
    · constructor
      · linarith [h.1]
      · have hb : b ≤ t.getLastD b := chain'_le_getLastD t b h.2
        linarith [h.1]
    · have hx2 := ih b h.2 x hx
      exact ⟨h.1.trans hx2.1, hx2.2⟩

lemma zipWith_if_all (emin emax : ℚ) (g : ℚ → ℚ → ℚ) :
    ∀ (fl em : List ℚ), (∀ e ∈ em, emin ≤ e ∧ e ≤ emax) →
    List.zipWith (fun f e => if emin ≤ e ∧ e ≤ emax then g f e else 0) fl em
      = List.zipWith g fl em := by
  intro fl
  induction fl with
  | nil => intro em _; simp
  | cons f ft ih =>
    intro em hem
    cases em with
    | nil => simp
    | cons e et =>
      simp only [List.zipWith_cons_cons]
      rw [if_pos (hem e (by simp)), ih et (fun y hy => hem y (by simp [hy]))]

lemma zipWith_fst (fl : List ℚ) : ∀ em : List ℚ, fl.length = em.length →
    List.zipWith (fun f _ => f) fl em = fl := by
  induction fl with
  | nil => intro em _; simp
  | cons f ft ih =>
    intro em hlen
    cases em with
    | nil => simp at hlen
    | cons e et =>
      simp only [List.zipWith_cons_cons, List.cons.injEq, true_and]
      exact ih et (by simpa using hlen)

/-- C4: for a spectrum on a non-decreasing edge grid whose flux array has
one entry per bin, `get_flux_in_band` from the first edge to the last edge
returns exactly `(total_flux, total_energy_flux)` — every bin midpoint
lies inside the band, so the masked sums are the full sums (exact
equality in the rational model, hence within any floating tolerance). -/
theorem c4_full_band (c : ℚ) (s : Spectrum) (emin emax : ℚ)
    (hch : List.Chain' (· ≤ ·) s.ebins)
    (hlen : s.flux.length = s.emid.length)
    (hhead : s.ebins.head? = some emin)
    (hlast : s.ebins.getLast? = some emax) :
    s.get_flux_in_band c emin emax = (s.total_flux, s.total_energy_flux c) := by
  have hall : ∀ x ∈ s.emid, emin ≤ x ∧ x ≤ emax := by
    intro x hx
    rcases hcons : s.ebins with _ | ⟨a, rest⟩
    · rw [hcons] at hhead; simp at hhead
    · rw [hcons] at hhead hlast hch
      simp only [List.head?_cons, Option.some.injEq] at hhead
      subst hhead
      have hgl : rest.getLastD a = emax := by
        have h2 : (a :: rest).getLastD a = emax := by
          rw [List.getLastD_eq_getLast?, hlast]
          rfl
        rwa [List.getLastD_cons] at h2
      have hb := emid_bounds rest a hch x (by rw [Spectrum.emid, hcons] at hx; exact hx)
      rw [hgl] at hb
      exact hb
  unfold Spectrum.get_flux_in_band Spectrum.total_flux Spectrum.total_energy_flux
  rw [Prod.mk.injEq]
  constructor
  · rw [zipWith_if_all emin emax (fun f _ => f) s.flux s.emid hall,
      zipWith_fst s.flux s.emid hlen]
  · rw [zipWith_if_all emin emax (fun f e => f * (e * c)) s.flux s.emid hall]

/-- C4 witness: the theorem applied to the concrete spectrum on edges
`[1,2,4]` with the full band `[1,4]`. -/
theorem c4_witness :
    specW.get_flux_in_band 2 1 4 = (specW.total_flux, specW.total_energy_flux 2) :=
  c4_full_band 2 specW 1 4 (by norm_num [specW, List.chain'_cons])
    (by decide) (by decide) (by decide)

/-- C9: on the monotonically increasing, non-uniformly spaced edge grid
`[0,1,3]` (bin widths 1 and 2) with flux `[2,4]`, every derived quantity
— `de`, `total_flux`, `total_energy_flux`, the cumulative distribution
and both band integrals — is computed with the first bin's width applied
to every bin (values 6, 9, `[0,1/3,1]`, `(6,9)`), and each differs from
the corresponding per-bin-width computation (10, 17, `[0,1/5,1]`,
`(10,17)`). -/
theorem c9_first_bin_width :
    List.Chain' (· < ·) specNU.ebins ∧
    npDiff specNU.ebins = [1, 2] ∧
    specNU.de = 1 ∧
    specNU.total_flux = 6 ∧
    specNU.total_flux_perbin = 10 ∧
    specNU.total_flux ≠ specNU.total_flux_perbin ∧
    specNU.total_energy_flux 1 = 9 ∧
    specNU.total_energy_flux_perbin 1 = 17 ∧
    specNU.total_energy_flux 1 ≠ specNU.total_energy_flux_perbin 1 ∧
    specNU.cumspec = [.fin 0, .fin (1/3), .fin 1] ∧
    specNU.cumspec_perbin = [.fin 0, .fin (1/5), .fin 1] ∧
    specNU.cumspec ≠ specNU.cumspec_perbin ∧
    specNU.get_flux_in_band 1 0 3 = (6, 9) ∧
    specNU.get_flux_in_band_perbin 1 0 3 = (10, 17) ∧
    specNU.get_flux_in_band 1 0 3 ≠ specNU.get_flux_in_band_perbin 1 0 3 := by
  refine ⟨?_, ?_, ?_, ?_, ?_, ?_, ?_, ?_, ?_, ?_, ?_, ?_, ?_, ?_, ?_⟩ <;>
    norm_num [specNU, Spectrum.de, Spectrum.total_flux, Spectrum.total_flux_perbin,
      Spectrum.total_energy_flux, Spectrum.total_energy_flux_perbin,
      Spectrum.cumspec, Spectrum.cumspec_perbin, Spectrum.get_flux_in_band,
      Spectrum.get_flux_in_band_perbin, Spectrum.emid, emidOf, npDiff,
      computeCumspec, cumspecRaw, cumspecTotal, prefixSums, fdiv,
      List.chain'_cons]

lemma zipWith_zipWith_same {α β γ δ : Type} (g : γ → β → δ) (f : α → β → γ) :
    ∀ (as : List α) (bs : List β),
    List.zipWith g (List.zipWith f as bs) bs
      = List.zipWith (fun a b => g (f a b) b) as bs := by
  intro as
  induction as with
  | nil => intro bs; simp
  | cons a at' ih =>
    intro bs
    cases bs with
    | nil => simp
    | cons b bt => simp [ih bt]

/-- C5: applying foreground absorption with column `nH1` and then `nH2`
(same model and redshift) produces exactly the flux of a single
application with column `nH1 + nH2`, for every model string: on the
"wabs" and "tbabs" branches this is the additivity of the exponent in
`exp(-nH*1e22*sigma(e))`, and on any other model string both sides raise
the same `UnboundLocalError`. -/
theorem c5_absorption_additive (σtb : ℚ → ℚ) (s : SpectrumR)
    (nH1 nH2 redshift : ℚ) (model : String) :
    (s.apply_foreground_absorption σtb nH1 model redshift).bind
      (fun t => t.apply_foreground_absorption σtb nH2 model redshift)
    = s.apply_foreground_absorption σtb (nH1 + nH2) model redshift := by
  have key : ∀ σ : ℚ → ℚ,
      (fun (a : ℝ) (b : ℚ) =>
        a * Real.exp (-((nH1 : ℝ) * 1e22 * (σ b : ℝ)))
          * Real.exp (-((nH2 : ℝ) * 1e22 * (σ b : ℝ))))
      = fun (a : ℝ) (b : ℚ) =>
        a * Real.exp (-((((nH1 + nH2) : ℚ) : ℝ) * 1e22 * (σ b : ℝ))) := by
    intro σ
    funext a b
    rw [mul_assoc, ← Real.exp_add]
    congr 1
    push_cast
    ring_nf
  unfold SpectrumR.apply_foreground_absorption
  by_cases h1 : model = "wabs"
  · simp only [h1, reduceIte, Except.bind, SpectrumR.emid]
    rw [zipWith_zipWith_same, key wabs_cross_section]
  · by_cases h2 : model = "tbabs"
    · have hw : ¬ (("tbabs" : String) = "wabs") := by decide
      simp only [h1, h2, hw, reduceIte, Except.bind, SpectrumR.emid]
      rw [zipWith_zipWith_same, key σtb]
    · simp [h1, h2, Except.bind]

/-- C6: `from_powerlaw` with `redshift = 0` builds `nbins` uniform bins —
`nbins+1` edges starting at `emin`, ending at `emax`, with constant step
`(emax-emin)/nbins` — and its flux in every bin is
`norm * emid^(-photon_index)` at the bin midpoint. -/
theorem c6_powerlaw (photon_index norm emin emax : ℝ) (nbins : ℕ)
    (hn : 0 < nbins) :
    (from_powerlaw_ebins emin emax nbins).length = nbins + 1 ∧
    (from_powerlaw_ebins emin emax nbins).head? = some emin ∧
    (from_powerlaw_ebins emin emax nbins).getLast? = some emax ∧
    (∀ i : ℕ, i < nbins →
      (from_powerlaw_ebins emin emax nbins).getD (i + 1) 0
        - (from_powerlaw_ebins emin emax nbins).getD i 0
        = (emax - emin) / nbins) ∧
    from_powerlaw_flux photon_index 0 norm emin emax nbins
      = (emidOf (from_powerlaw_ebins emin emax nbins)).map
          (fun e => norm * e ^ (-photon_index)) := by
  have hn' : (nbins : ℝ) ≠ 0 := Nat.cast_ne_zero.mpr hn.ne'
  refine ⟨?_, ?_, ?_, ?_, ?_⟩
  · simp [from_powerlaw_ebins]
  · rw [from_powerlaw_ebins, List.range_succ_eq_map]
    simp only [List.map_cons, List.head?_cons, Nat.cast_zero, zero_mul, add_zero]
  · rw [from_powerlaw_ebins, List.range_succ, List.map_append]
    simp only [List.map_cons, List.map_nil, List.getLast?_concat]
    rw [mul_div_assoc', mul_comm, mul_div_assoc, div_self hn', mul_one]
    rw [Option.some.injEq]
    ring_nf
  · intro i hi
    rw [from_powerlaw_ebins]
    rw [List.getD_eq_getElem?_getD, List.getD_eq_getElem?_getD]
    rw [List.getElem?_map, List.getElem?_map]
    rw [List.getElem?_range (by omega : i + 1 < nbins + 1),
      List.getElem?_range (by omega : i < nbins + 1)]
    simp only [Option.map_some', Option.getD_some]
    push_cast
    ring_nf
  · rw [from_powerlaw_flux]
    apply List.map_congr_left
    intro e _
    norm_num

/-- C6 witness: the theorem applied at `photon_index=2`, `norm=5`,
`emin=1`, `emax=3`, `nbins=2`. -/
theorem c6_witness :
    (from_powerlaw_ebins 1 3 2).length = 2 + 1 ∧
    (from_powerlaw_ebins 1 3 2).head? = some 1 ∧
    (from_powerlaw_ebins 1 3 2).getLast? = some 3 ∧
    (∀ i : ℕ, i < 2 →
      (from_powerlaw_ebins 1 3 2).getD (i + 1) 0
        - (from_powerlaw_ebins 1 3 2).getD i 0
        = ((3 : ℝ) - 1) / ((2 : ℕ) : ℝ)) ∧
    from_powerlaw_flux 2 0 5 1 3 2
      = (emidOf (from_powerlaw_ebins 1 3 2)).map
          (fun e => 5 * e ^ (-(2 : ℝ))) :=
  c6_powerlaw 2 5 1 3 2 (by decide)

lemma insertSorted_length (x : ℚ) : ∀ l : List ℚ,
    (insertSorted x l).length = l.length + 1 := by
  intro l
  induction l with
  | nil => rfl
  | cons y ys ih =>
    rw [insertSorted]
    split
    · simp
    · simp [ih]

lemma pySort_length (l : List ℚ) : (pySort l).length = l.length := by
  unfold pySort
  induction l with
  | nil => rfl
  | cons x xs ih => simp [List.foldr_cons, insertSorted_length, ih]

/-- C8: `generate_energies` is a deterministic function of the seeded
random source — two calls from equal states produce identical results —
and the number of sampled energies is the single Poisson draw with mean
`t_exp * (area * total_flux)` taken from that source. -/
theorem c8_generate_energies (σ : Type) (ip : ℚ → List PFloat → List ℚ → ℚ)
    (P : PrngModel σ) (s : Spectrum) (t_exp area c : ℚ) (st1 st2 : σ)
    (hseed : st1 = st2) :
    s.generate_energies ip P t_exp area c st1
      = s.generate_energies ip P t_exp area c st2 ∧
    (s.generate_energies ip P t_exp area c st1).1.1.length
      = (P.poisson st1 (t_exp * (area * s.total_flux))).1 := by
  subst hseed
  refine ⟨rfl, ?_⟩
  unfold Spectrum.generate_energies generate_energies_raw
  simp [pySort_length, P.uniform_length]

/-- C8 witness: the theorem applied to the concrete spectrum, the trivial
interpolator and the concrete deterministic random source, from seed
state 0 (Poisson stub returns 3 samples). -/
theorem c8_witness :
    specA.generate_energies ipW prngW 1 1 1 0
      = specA.generate_energies ipW prngW 1 1 1 0 ∧
    (specA.generate_energies ipW prngW 1 1 1 0).1.1.length
      = (prngW.poisson 0 (1 * (1 * specA.total_flux))).1 :=
  c8_generate_energies ℕ ipW prngW specA 1 1 1 0 0 rfl

/-- C10: `rescale_flux` with a `flux_type` other than "photons"/"energy",
and `apply_foreground_absorption` with a model other than "wabs"/"tbabs",
both raise Python's `UnboundLocalError` (reading the never-assigned local
`f` resp. `sigma`), not a descriptive validation error; the error is
raised before the flux array is touched, so the spectrum state — flux and
all derived caches — is unchanged (the error result carries no new
state). -/
theorem c10_unbound_local (s : Spectrum) (new_flux : ℚ) (emin emax : Option ℚ)
    (flux_type : String) (c : ℚ) (sR : SpectrumR) (σtb : ℚ → ℚ) (nH z : ℚ)
    (model : String) :
    (flux_type ≠ "photons" → flux_type ≠ "energy" →
      s.rescale_flux new_flux emin emax flux_type c
        = .error .unboundLocalError) ∧
    (model ≠ "wabs" → model ≠ "tbabs" →
      sR.apply_foreground_absorption σtb nH model z
        = .error .unboundLocalError) := by
  constructor
  · intro h1 h2
    unfold Spectrum.rescale_flux
    rw [if_neg h1, if_neg h2]
  · intro h1 h2
    unfold SpectrumR.apply_foreground_absorption
    rw [if_neg h1, if_neg h2]

/-- C10 witness: the theorem applied with the invalid strings "flux" and
"phabs". -/
theorem c10_witness :
    specA.rescale_flux 1 none none "flux" 1 = .error .unboundLocalError ∧
    specR0.apply_foreground_absorption (fun _ => 0) 1 "phabs" 0
      = .error .unboundLocalError :=
  ⟨(c10_unbound_local specA 1 none none "flux" 1 specR0 (fun _ => 0) 1 0
      "phabs").1 (by decide) (by decide),
   (c10_unbound_local specA 1 none none "flux" 1 specR0 (fun _ => 0) 1 0
      "phabs").2 (by decide) (by decide)⟩

lemma searchsorted_le_length (v : ℚ) : ∀ l : List ℚ, searchsorted l v ≤ l.length := by
  intro l
  induction l with
  | nil => simp [searchsorted]
  | cons a rest ih =>
    rw [searchsorted]
    split
    · simp
    · simp only [List.length_cons]
      omega

lemma searchsorted_all_lt (v : ℚ) : ∀ l : List ℚ, (∀ x ∈ l, x < v) →
    searchsorted l v = l.length := by
  intro l
  induction l with
  | nil => intro _; rfl
  | cons a rest ih =>
    intro h
    rw [searchsorted, if_neg (not_le.mpr (h a (by simp))),
      ih (fun x hx => h x (by simp [hx]))]
    simp [add_comm]

lemma searchsorted_lt_length (v : ℚ) : ∀ l : List ℚ, (∃ x ∈ l, v ≤ x) →
    searchsorted l v < l.length := by
  intro l
  induction l with
  | nil => rintro ⟨x, hx, _⟩; simp at hx
  | cons a rest ih =>
    rintro ⟨x, hx, hvx⟩
    rw [searchsorted]
    split
    · simp
    · next hna =>
      rcases List.mem_cons.mp hx with rfl | hx2
      · exact absurd hvx hna
      · have := ih ⟨x, hx2, hvx⟩
        simp only [List.length_cons]
        omega

lemma mem_of_getLast? : ∀ (l : List ℚ) (a : ℚ), l.getLast? = some a → a ∈ l := by
  intro l
  induction l with
  | nil => intro a h; simp at h
  | cons b rest ih =>
    intro a h
    cases rest with
    | nil => simp_all
    | cons c t =>
      rw [List.getLast?_cons_cons] at h
      exact List.mem_cons_of_mem b (ih a h)

lemma all_le_getLast : ∀ (l : List ℚ) (m : ℚ), List.Chain' (· ≤ ·) l →
    l.getLast? = some m → ∀ x ∈ l, x ≤ m := by
  intro l
  induction l with
  | nil => simp
  | cons a rest ih =>
    intro m hch hl x hx
    cases rest with
    | nil =>
      simp only [List.getLast?_singleton, Option.some.injEq] at hl
      simp only [List.mem_singleton] at hx
      simp [hx, hl]
    | cons b t =>
      rw [List.getLast?_cons_cons] at hl
      rw [List.chain'_cons] at hch
      rcases List.mem_cons.mp hx with rfl | hx2
      · exact hch.1.trans (ih m hch.2 hl b (by simp))
      · exact ih m hch.2 hl x hx2

theorem npDiff_length : ∀ l : List ℚ, (npDiff l).length = l.length - 1
  | [] => rfl
  | [_] => rfl
  | a :: b :: rest => by
    rw [npDiff, List.length_cons, npDiff_length (b :: rest)]
    simp

theorem npDiff_getD : ∀ (l : List ℚ) (j : ℕ), j + 1 < l.length →
    (npDiff l).getD j 0 = l.getD (j + 1) 0 - l.getD j 0
  | [], j, h => by simp at h
  | [_], j, h => by simp at h
  | a :: b :: rest, 0, _ => by simp [npDiff]
  | a :: b :: rest, j + 1, h => by
    have ih := npDiff_getD (b :: rest) j (by simpa using h)
    simp only [npDiff, List.getD_cons_succ]
    exact ih

lemma npGetQ_of_nonneg (l : List ℚ) (i : ℤ) (h0 : 0 ≤ i) (h : i.toNat < l.length) :
    npGetQ l i = .ok (l.getD i.toNat 0) := by
  unfold npGetQ
  rw [if_neg (not_lt.mpr h0), if_pos h]

lemma npGetQ_of_nonneg_err (l : List ℚ) (i : ℤ) (h0 : 0 ≤ i)
    (h : ¬ i.toNat < l.length) : npGetQ l i = .error .indexError := by
  unfold npGetQ
  rw [if_neg (not_lt.mpr h0), if_neg h]

lemma npGetQ_neg_one (l : List ℚ) (h : 1 ≤ l.length) :
    npGetQ l (-1) = .ok (l.getD (l.length - 1) 0) := by
  unfold npGetQ
  rw [if_pos (by norm_num : (-1 : ℤ) < 0),
    if_pos (by simpa using h : ((-(-1 : ℤ)).toNat ≤ l.length))]
  norm_num

lemma npGetQ_error_shape (l : List ℚ) (i : ℤ) (e : PyErr)
    (h : npGetQ l i = .error e) : e = .indexError := by
  unfold npGetQ at h
  split at h <;> split at h <;> simp_all

lemma spectrum_init_cases (g : ApecGenerator) (kT T0 Tl : ℚ)
    (hch : List.Chain' (· < ·) g.Tvals)
    (hT0 : g.Tvals.head? = some T0) (hTl : g.Tvals.getLast? = some Tl) :
    (2 ≤ g.Tvals.length → kT ≤ T0 →
      ∃ dT, g.spectrum_init kT = .ok (-1, dT)) ∧
    (Tl < kT → g.spectrum_init kT = .error .indexError) ∧
    (T0 < kT → kT ≤ Tl →
      g.spectrum_init kT
        = .ok ((searchsorted g.Tvals kT : ℤ) - 1, apecDT g.Tvals kT) ∧
      1 ≤ searchsorted g.Tvals kT ∧
      searchsorted g.Tvals kT < g.Tvals.length) := by
  obtain ⟨rest, hrest⟩ : ∃ rest, g.Tvals = T0 :: rest := by
    cases hl : g.Tvals with
    | nil => rw [hl] at hT0; simp at hT0
    | cons a r =>
      rw [hl] at hT0
      simp only [List.head?_cons, Option.some.injEq] at hT0
      exact ⟨r, by rw [hT0]⟩
  have hne : g.Tvals.length ≠ 0 := by rw [hrest]; simp
  refine ⟨?_, ?_, ?_⟩
  · intro hlen2 hle
    have hss : searchsorted g.Tvals kT = 0 := by
      rw [hrest, searchsorted, if_pos hle]
    have hA := npGetQ_neg_one g.Tvals (by omega)
    have hB := npGetQ_neg_one (npDiff g.Tvals) (by rw [npDiff_length]; omega)
    refine ⟨(kT - g.Tvals.getD (g.Tvals.length - 1) 0)
        / (npDiff g.Tvals).getD ((npDiff g.Tvals).length - 1) 0, ?_⟩
    unfold ApecGenerator.spectrum_init
    rw [hss]
    norm_num [hA, hB]
  · intro hlt
    have hall : ∀ x ∈ g.Tvals, x < kT := fun x hx =>
      lt_of_le_of_lt (all_le_getLast g.Tvals Tl (hch.imp fun _ _ h => le_of_lt h) hTl x hx) hlt
    have hss : searchsorted g.Tvals kT = g.Tvals.length :=
      searchsorted_all_lt kT g.Tvals hall
    have h0 : (0 : ℤ) ≤ (g.Tvals.length : ℤ) - 1 := by omega
    have htoNat : ((g.Tvals.length : ℤ) - 1).toNat = g.Tvals.length - 1 := by omega
    have hA := npGetQ_of_nonneg g.Tvals ((g.Tvals.length : ℤ) - 1) h0
      (by rw [htoNat]; omega)
    have hB := npGetQ_of_nonneg_err (npDiff g.Tvals) ((g.Tvals.length : ℤ) - 1) h0
      (by rw [htoNat, npDiff_length]; omega)
    unfold ApecGenerator.spectrum_init
    rw [hss, hA, hB]
  · intro hlt hle
    have hss1 : 1 ≤ searchsorted g.Tvals kT := by
      rw [hrest, searchsorted, if_neg (not_le.mpr hlt)]
      omega
    have hsslen : searchsorted g.Tvals kT < g.Tvals.length :=
      searchsorted_lt_length kT g.Tvals ⟨Tl, mem_of_getLast? g.Tvals Tl hTl, hle⟩
    have h0 : (0 : ℤ) ≤ (searchsorted g.Tvals kT : ℤ) - 1 := by omega
    have htoNat : ((searchsorted g.Tvals kT : ℤ) - 1).toNat
        = searchsorted g.Tvals kT - 1 := by omega
    have hA := npGetQ_of_nonneg g.Tvals ((searchsorted g.Tvals kT : ℤ) - 1) h0
      (by rw [htoNat]; omega)
    have hB := npGetQ_of_nonneg (npDiff g.Tvals) ((searchsorted g.Tvals kT : ℤ) - 1)
      h0 (by rw [htoNat, npDiff_length]; omega)
    refine ⟨?_, hss1, hsslen⟩
    unfold ApecGenerator.spectrum_init
    rw [hA, hB, htoNat]
    rw [npDiff_getD g.Tvals (searchsorted g.Tvals kT - 1) (by omega)]
    rw [apecDT]

lemma spectrum_init_error_shape (g : ApecGenerator) (kT : ℚ) (e : PyErr)
    (h : g.spectrum_init kT = .error e) : e = .indexError := by
  unfold ApecGenerator.spectrum_init at h
  rcases h1 : npGetQ g.Tvals ((searchsorted g.Tvals kT : ℤ) - 1) with e1 | v1 <;>
    rcases h2 : npGetQ (npDiff g.Tvals) ((searchsorted g.Tvals kT : ℤ) - 1)
      with e2 | v2 <;>
    rw [h1, h2] at h <;> simp only [Except.error.injEq] at h
  · exact h ▸ npGetQ_error_shape _ _ _ h1
  · exact h ▸ npGetQ_error_shape _ _ _ h1
  · exact h ▸ npGetQ_error_shape _ _ _ h2
  · simp at h

/-- C2 counterexample: the claim says `get_spectrum` with `kT` at or above
`Tvals[-1]` returns an all-zero-flux spectrum without raising.  On the
concrete generator with `Tvals = [1,2,3]`, `kT = 4` gives
`tindex = searchsorted-1 = 2`, and `_spectrum_init` evaluates
`dTvals[2]` on the 2-element diff array *before* the range guard, raising
`IndexError` instead of returning zeros. -/
theorem c2_counterexample :
    genC.get_spectrum 4 0 0 1 0 [] = .error .indexError := by
  have hch : List.Chain' (· < ·) genC.Tvals := by
    norm_num [genC, List.chain'_cons]
  have h := (spectrum_init_cases genC 4 1 3 hch rfl rfl).2.1 (by norm_num)
  unfold ApecGenerator.get_spectrum
  rw [if_neg (by simp [genC]), if_neg (by simp [genC]), h]

/-- C2 amended: with a valid mode and key set, the temperature boundary
behavior of `get_spectrum` / `get_nei_spectrum` on a strictly increasing
temperature grid is: `kT ≤ Tvals[0]` returns the bare all-zero array
(`tindex = -1`, silent negative-index wrap); `kT > Tvals[-1]` raises
`IndexError` from `dTvals[tindex]` before the range guard (the guard's
overflow arm is unreachable); and for `Tvals[0] < kT ≤ Tvals[-1]` the
result is the `Spectrum` obtained by linear interpolation between the
bracketing indices `searchsorted(Tvals,kT)-1` and its successor.  In
particular the zero region is `(-∞, Tvals[0]]`, not `(-∞, Tvals[0])`, and
`kT = Tvals[-1]` interpolates (with `dT = 1`) rather than returning
zeros. -/
theorem c2_amended (g : ApecGenerator) (kT abund redshift norm velocity : ℚ)
    (ea : List (String × ℚ)) (T0 Tl : ℚ)
    (hch : List.Chain' (· < ·) g.Tvals)
    (hT0 : g.Tvals.head? = some T0) (hTl : g.Tvals.getLast? = some Tl) :
    (g.nei = false → (ea.map Prod.fst).toFinset = g.var_elem_names.toFinset →
      ((2 ≤ g.Tvals.length → kT ≤ T0 →
        g.get_spectrum kT abund redshift norm velocity ea
          = .ok (.arr (List.replicate g.nbins 0))) ∧
       (Tl < kT →
        g.get_spectrum kT abund redshift norm velocity ea
          = .error .indexError) ∧
       (T0 < kT → kT ≤ Tl →
        g.get_spectrum kT abund redshift norm velocity ea
          = .ok (.spec ⟨g.ebins,
              g.combineSpec (searchsorted g.Tvals kT - 1) (apecDT g.Tvals kT)
                abund redshift norm (velocity * 1e5) ea, specUnits⟩)))) ∧
    (g.nei = true → (ea.map Prod.fst).toFinset = g.var_ion_names.toFinset →
      ((2 ≤ g.Tvals.length → kT ≤ T0 →
        g.get_nei_spectrum kT ea redshift norm velocity
          = .ok (.arr (List.replicate g.nbins 0))) ∧
       (Tl < kT →
        g.get_nei_spectrum kT ea redshift norm velocity
          = .error .indexError) ∧
       (T0 < kT → kT ≤ Tl →
        g.get_nei_spectrum kT ea redshift norm velocity
          = .ok (.spec ⟨g.ebins,
              g.combineNeiSpec (searchsorted g.Tvals kT - 1) (apecDT g.Tvals kT)
                redshift norm (velocity * 1e5) ea, specUnits⟩)))) := by
  have hcases := spectrum_init_cases g kT T0 Tl hch hT0 hTl
  constructor
  · intro hnei hkeys
    have hif1 : ¬ (g.nei = true) := by simp [hnei]
    have hif2 : ¬ ((ea.map Prod.fst).toFinset ≠ g.var_elem_names.toFinset) :=
      fun h => h hkeys
    refine ⟨?_, ?_, ?_⟩
    · intro hlen2 hle
      obtain ⟨dT, hinit⟩ := hcases.1 hlen2 hle
      unfold ApecGenerator.get_spectrum
      rw [if_neg hif1, if_neg hif2]
      simp only [hinit]
      rw [if_pos (Or.inr (by norm_num : (-1 : ℤ) < 0))]
    · intro hlt
      unfold ApecGenerator.get_spectrum
      rw [if_neg hif1, if_neg hif2, hcases.2.1 hlt]
    · intro hlt hle
      obtain ⟨hinit, hss1, hsslen⟩ := hcases.2.2 hlt hle
      unfold ApecGenerator.get_spectrum
      rw [if_neg hif1, if_neg hif2]
      simp only [hinit]
      rw [if_neg (by push_neg; omega)]
      have htoNat : ((searchsorted g.Tvals kT : ℤ) - 1).toNat
          = searchsorted g.Tvals kT - 1 := by omega
      rw [htoNat]
  · intro hnei hkeys
    have hif1 : ¬ ¬ (g.nei = true) := fun h => h hnei
    have hif2 : ¬ ((ea.map Prod.fst).toFinset ≠ g.var_ion_names.toFinset) :=
      fun h => h hkeys
    refine ⟨?_, ?_, ?_⟩
    · intro hlen2 hle
      obtain ⟨dT, hinit⟩ := hcases.1 hlen2 hle
      unfold ApecGenerator.get_nei_spectrum
      rw [if_neg hif1, if_neg hif2]
      simp only [hinit]
      rw [if_pos (Or.inr (by norm_num : (-1 : ℤ) < 0))]
    · intro hlt
      unfold ApecGenerator.get_nei_spectrum
      rw [if_neg hif1, if_neg hif2, hcases.2.1 hlt]
    · intro hlt hle
      obtain ⟨hinit, hss1, hsslen⟩ := hcases.2.2 hlt hle
      unfold ApecGenerator.get_nei_spectrum
      rw [if_neg hif1, if_neg hif2]
      simp only [hinit]
      rw [if_neg (by push_neg; omega)]
      have htoNat : ((searchsorted g.Tvals kT : ℤ) - 1).toNat
          = searchsorted g.Tvals kT - 1 := by omega
      rw [htoNat]

/-- C2 witness: the amended theorem applied to the concrete CIE generator
at `kT = 1 = Tvals[0]` (the silent-zero branch). -/
theorem c2_witness :
    genC.get_spectrum 1 0 0 1 0 [] = .ok (.arr (List.replicate genC.nbins 0)) :=
  ((c2_amended genC 1 0 0 1 0 [] 1 3
      (by norm_num [genC, List.chain'_cons]) rfl rfl).1 rfl rfl).1
    (by norm_num [genC]) (by norm_num)

/-- C7: `get_spectrum` fails on an NEI generator and `get_nei_spectrum`
on a CIE generator; each fails with the descriptive error carrying both
the supplied key set and the configured free-element (resp. free-ion)
name set whenever the two sets differ; and when the key sets match
exactly the call never fails for that reason (whatever else happens, the
result is never an `abundMismatch` error). -/
theorem c7_abund_validation (g : ApecGenerator)
    (kT abund redshift norm velocity : ℚ) (ea : List (String × ℚ)) :
    (g.nei = true →
      g.get_spectrum kT abund redshift norm velocity ea
        = .error .useGetNeiSpectrum) ∧
    (g.nei = false →
      (ea.map Prod.fst).toFinset ≠ g.var_elem_names.toFinset →
      g.get_spectrum kT abund redshift norm velocity ea
        = .error (.abundMismatch (ea.map Prod.fst) g.var_elem_names)) ∧
    (g.nei = false →
      (ea.map Prod.fst).toFinset = g.var_elem_names.toFinset →
      ∀ ks ns, g.get_spectrum kT abund redshift norm velocity ea
        ≠ .error (.abundMismatch ks ns)) ∧
    (g.nei = false →
      g.get_nei_spectrum kT ea redshift norm velocity
        = .error .useGetSpectrum) ∧
    (g.nei = true →
      (ea.map Prod.fst).toFinset ≠ g.var_ion_names.toFinset →
      g.get_nei_spectrum kT ea redshift norm velocity
        = .error (.abundMismatch (ea.map Prod.fst) g.var_ion_names)) ∧
    (g.nei = true →
      (ea.map Prod.fst).toFinset = g.var_ion_names.toFinset →
      ∀ ks ns, g.get_nei_spectrum kT ea redshift norm velocity
        ≠ .error (.abundMismatch ks ns)) := by
  refine ⟨?_, ?_, ?_, ?_, ?_, ?_⟩
  · intro hnei
    unfold ApecGenerator.get_spectrum
    rw [if_pos hnei]
  · intro hnei hne
    unfold ApecGenerator.get_spectrum
    rw [if_neg (by simp [hnei]), if_pos hne]
  · intro hnei hkeys ks ns
    unfold ApecGenerator.get_spectrum
    rw [if_neg (by simp [hnei]), if_neg (fun h => h hkeys)]
    rcases hinit : g.spectrum_init kT with e | p
    · have he := spectrum_init_error_shape g kT e hinit
      simp [he]
    · rcases p with ⟨tindex, dT⟩
      simp only []
      split <;> simp
  · intro hnei
    unfold ApecGenerator.get_nei_spectrum
    rw [if_pos (by simp [hnei])]
  · intro hnei hne
    unfold ApecGenerator.get_nei_spectrum
    rw [if_neg (fun h => h hnei), if_pos hne]
  · intro hnei hkeys ks ns
    unfold ApecGenerator.get_nei_spectrum
    rw [if_neg (fun h => h hnei), if_neg (fun h => h hkeys)]
    rcases hinit : g.spectrum_init kT with e | p
    · have he := spectrum_init_error_shape g kT e hinit
      simp [he]
    · rcases p with ⟨tindex, dT⟩
      simp only []
      split <;> simp

/-- C7 witness: the theorem's mismatch arm applied to the concrete CIE
generator (no free elements) with the spurious abundance key "O". -/
theorem c7_witness :
    genC.get_spectrum 1 0 0 1 0 [("O", 1)]
      = .error (.abundMismatch ((([("O", (1 : ℚ))]).map Prod.fst))
          genC.var_elem_names) :=
  (c7_abund_validation genC 1 0 0 1 0 [("O", 1)]).2.1 rfl (by simp [genC])
